import Mathlib

/-!
Verification development for the American Eagle product scraper
(`scraper.py`).  The Python source (and the JavaScript snippets it
evaluates in the page) is shallowly embedded as executable Lean
definitions; external collaborators (the Playwright renderer, the
SigLIP embedder's network/tensor part, the Supabase sink) appear as
oracle inputs.  All theorems at the end of the file are about these
definitions.
-/

set_option autoImplicit false

namespace AEScraper

/-! ## String utilities

The scraper relies on JavaScript `trim` / `includes` / property access
and Python `str.strip` / `str.startswith`.  We embed them as plain
functions over `List Char` so that every proof can compute.
-/

/-- Whitespace recognized by JS `trim` and Python `strip` for the ASCII
range (the only characters at issue in this code base). -/
def isWs (c : Char) : Bool :=
  c = ' ' || c = '\t' || c = '\n' || c = '\r' || c = '\x0b' || c = '\x0c'

/-- Strip leading and trailing whitespace from a character list. -/
def trimChars (l : List Char) : List Char :=
  ((l.dropWhile isWs).reverse.dropWhile isWs).reverse

/-- JS `String.prototype.trim` / Python `str.strip()`. -/
def strTrim (s : String) : String :=
  String.mk (trimChars s.toList)

/-- `leadsWith p l` is true iff `p` is a prefix of `l`. -/
def leadsWith : List Char → List Char → Bool
  | [], _ => true
  | _ :: _, [] => false
  | a :: as, b :: bs => a == b && leadsWith as bs

/-- `containsSeq needle hay` is true iff `needle` occurs contiguously in
`hay`; embeds JS `String.prototype.includes` / Python `in`. -/
def containsSeq (needle : List Char) : List Char → Bool
  | [] => needle.isEmpty
  | c :: rest => leadsWith needle (c :: rest) || containsSeq needle rest

/-- JS `hay.includes(needle)`. -/
def strContains (hay needle : String) : Bool :=
  containsSeq needle.toList hay.toList

/-- Python `s.startswith(p)` / JS `s.startsWith(p)`. -/
def startsWithStr (s p : String) : Bool :=
  leadsWith p.toList s.toList

/-- JS `String.prototype.toLowerCase`, per character. -/
def lowerStr (s : String) : String :=
  String.mk (s.toList.map Char.toLower)

/-! ## Price parsing (scraper.py lines 262-267 and 341-350)

The JS snippet runs `priceText.match(/[0-9,]+\.?[0-9]*/)` and replaces
the **first** comma (`String.replace` with a string pattern replaces a
single occurrence); Python then calls `float` on the result and, if that
raises, falls back to `re.search(r'(\d+\.?\d*)')`.
-/

/-- Character class `[0-9,]` of the JS price regex. -/
def isPriceChar (c : Char) : Bool :=
  c.isDigit || c = ','

/-- The (greedy) match of `[0-9,]+\.?[0-9]*` anchored at the head of
`l`, assuming the head is in `[0-9,]`. -/
def priceMatchAt (l : List Char) : List Char :=
  match l.dropWhile isPriceChar with
  | '.' :: rest => l.takeWhile isPriceChar ++ '.' :: rest.takeWhile Char.isDigit
  | _ => l.takeWhile isPriceChar

/-- First match of `/[0-9,]+\.?[0-9]*/` in `l`, as JS
`String.prototype.match` computes it (leftmost position, greedy). -/
def priceRegexMatch : List Char → Option (List Char)
  | [] => none
  | c :: rest =>
    if isPriceChar c then some (priceMatchAt (c :: rest))
    else priceRegexMatch rest

/-- JS `s.replace(',', '')`: removes only the first comma. -/
def replaceFirstComma : List Char → List Char
  | [] => []
  | c :: rest => if c = ',' then rest else c :: replaceFirstComma rest

/-- Numeric value of a digit list (most significant first). -/
def digitsVal (l : List Char) : Nat :=
  l.foldl (fun a c => 10 * a + (c.toNat - 48)) 0

/-- Python `float(s)` on the character sets reachable here (strings made
of digits, commas and dots): succeeds iff the string is
`digits* [. digits*]` with at least one digit and no comma, and returns
the exact decimal value (we use `ℚ` for the decimal semantics; no
floating-point rounding is relevant to the claims). -/
def pyFloat (l : List Char) : Option ℚ :=
  match l.dropWhile (fun c => c != '.') with
  | [] =>
    if l.takeWhile (fun c => c != '.') ≠ []
        ∧ (l.takeWhile (fun c => c != '.')).all Char.isDigit then
      some ((digitsVal (l.takeWhile (fun c => c != '.')) : ℚ))
    else none
  | _ :: frac =>
    -- the dropped head is necessarily '.'
    if (l.takeWhile (fun c => c != '.')).all Char.isDigit ∧ frac.all Char.isDigit
        ∧ (l.takeWhile (fun c => c != '.') ≠ [] ∨ frac ≠ []) then
      some ((digitsVal (l.takeWhile (fun c => c != '.')) : ℚ)
        + (digitsVal frac : ℚ) / (10 : ℚ) ^ frac.length)
    else none

/-- The match of `\d+\.?\d*` anchored at the head of `l`, assuming the
head is a digit. -/
def fallbackAt (l : List Char) : List Char :=
  match l.dropWhile Char.isDigit with
  | '.' :: rest => l.takeWhile Char.isDigit ++ '.' :: rest.takeWhile Char.isDigit
  | _ => l.takeWhile Char.isDigit

/-- First match of Python `re.search(r'(\d+\.?\d*)', s)`. -/
def fallbackMatch : List Char → Option (List Char)
  | [] => none
  | c :: rest =>
    if c.isDigit then some (fallbackAt (c :: rest))
    else fallbackMatch rest

/-- The JS side of price extraction (lines 262-267): given the text
content of the located price element (or `none` when no element
matched), produce the `price_text` entry of the data dictionary
(`none` models the key being absent). -/
def jsPriceText (priceEl : Option String) : Option String :=
  priceEl.map (fun t =>
    match priceRegexMatch (strTrim t).toList with
    | some m => String.mk (replaceFirstComma m)
    | none => "")

/-- The Python side of price extraction (lines 341-350): `float` with a
permissive-regex fallback, guarded by the truthiness of `price_text`. -/
def parse_price (price_text : Option String) : Option ℚ :=
  match price_text with
  | none => none
  | some s =>
    if s = "" then none
    else
      match pyFloat s.toList with
      | some q => some q
      | none =>
        match fallbackMatch s.toList with
        | some m => pyFloat m
        | none => none

/-- Full price pipeline from the price element's raw text. -/
def priceOfElementText (priceEl : Option String) : Option ℚ :=
  parse_price (jsPriceText priceEl)

/-! ## Currency inference (scraper.py lines 269-271) -/

/-- Leftmost match of `/\$|USD|EUR|GBP/`, trying the alternatives in
pattern order at each position. -/
def currencyScan : List Char → Option String
  | [] => none
  | '$' :: _ => some "$"
  | 'U' :: 'S' :: 'D' :: _ => some "USD"
  | 'E' :: 'U' :: 'R' :: _ => some "EUR"
  | 'G' :: 'B' :: 'P' :: _ => some "GBP"
  | _ :: rest => currencyScan rest

/-- `data.currency`: the matched symbol with `$` mapped to `USD`,
defaulting to `USD`. -/
def inferCurrency (bodyText : String) : String :=
  match currencyScan bodyText.toList with
  | some "$" => "USD"
  | some c => c
  | none => "USD"

/-! ## The rendered product page, as the JS snippet queries it
(scraper.py lines 239-329)

The DOM-query layer (`document.querySelector` and friends) is the
renderer boundary: a `PageModel` records, for each query the snippet
makes, what the rendered page answered.  The logic the snippet applies
to those answers is embedded below.
-/

/-- An `<img>` element as the snippet reads it: the (browser-resolved)
`src` property (`""` when the attribute is missing) and the raw
`data-src` attribute (`none` models `getAttribute` returning null). -/
structure ImgEl where
  src : String
  data_src : Option String

/-- JS `img.src || img.getAttribute('data-src') || ''`: first truthy
(non-empty, non-null) candidate. -/
def imgSrcChain (img : ImgEl) : String :=
  if img.src ≠ "" then img.src
  else
    match img.data_src with
    | some d => if d ≠ "" then d else ""
    | none => ""

/-- What the rendered page answers to each query the extraction snippet
makes. -/
structure PageModel where
  /-- `el.textContent` for each of the seven title selectors, in order
  (`none` when `querySelector` matched nothing). -/
  titleEls : List (Option String)
  /-- `textContent` of the element matched by the price selector. -/
  priceEl : Option String
  /-- `document.body.textContent`. -/
  bodyText : String
  /-- The element matched by the primary product-image selector. -/
  primaryImg : Option ImgEl
  /-- `document.querySelectorAll('img')`, in order. -/
  allImgs : List ImgEl
  /-- `textContent` of the element matched by the description selector. -/
  descEl : Option String
  /-- The button texts matched by each of the four size selectors. -/
  sizeGroups : List (List String)
  /-- `textContent` of the breadcrumb anchors, in order. -/
  breadcrumbs : List String
  /-- `window.location.pathname`. -/
  pathname : String
  /-- `window.location.href`. -/
  href : String

/-- Title resolution (lines 244-259): the first selector whose element
exists and has non-empty trimmed text wins. -/
def jsTitle : List (Option String) → Option String
  | [] => none
  | none :: rest => jsTitle rest
  | some t :: rest =>
    if strTrim t ≠ "" then some (strTrim t) else jsTitle rest

/-- Image resolution (lines 273-283): primary selector first, otherwise
scan all images for a source containing `"product"` or an `ae.com`
image; `data.image_url` is the source chain of the found element, `""`
when none is found. -/
def jsImage (primary : Option ImgEl) (all : List ImgEl) : String :=
  match primary with
  | some el => imgSrcChain el
  | none =>
    match all.find? (fun img =>
      let src := imgSrcChain img
      strContains src "product"
        || (strContains src "ae.com" && (strContains src ".jpg" || strContains src ".png"))) with
    | some el => imgSrcChain el
    | none => ""

/-- The first size-selector group with any matches (lines 296-303). -/
def firstNonEmptyGroup : List (List String) → List String
  | [] => []
  | g :: rest => if g ≠ [] then g else firstNonEmptyGroup rest

/-- Sizes (line 304): trim the first matching group's button texts and
keep the short non-empty ones. -/
def jsSizes (groups : List (List String)) : List String :=
  ((firstNonEmptyGroup groups).map strTrim).filter (fun s => s ≠ "" && s.length < 10)

/-- Category (lines 307-308): the last breadcrumb anchor's trimmed
text, `""` when there is none. -/
def jsCategory (breadcrumbs : List String) : String :=
  match breadcrumbs.getLast? with
  | some b => strTrim b
  | none => ""

/-- Gender from the URL path (lines 311-318). -/
def jsGender (pathname : String) : String :=
  let path := lowerStr pathname
  if strContains path "/women/" || strContains path "/womens" then "WOMAN"
  else if strContains path "/men/" || strContains path "/mens" then "MAN"
  else "OTHER"

/-- The dictionary the evaluated snippet returns (lines 239-329).
`title` and `price_text` are `Option` because the snippet only sets
those keys conditionally; every other key is always set. -/
structure JsData where
  title : Option String
  price_text : Option String
  currency : String
  image_url : String
  description : String
  sizes : List String
  category : String
  gender : String
  meta_url : String
  breadcrumbs : List String

/-- The full evaluated snippet. -/
def jsExtract (pm : PageModel) : JsData where
  title := jsTitle pm.titleEls
  price_text := jsPriceText pm.priceEl
  currency := inferCurrency pm.bodyText
  image_url := jsImage pm.primaryImg pm.allImgs
  description :=
    match pm.descEl with
    | some d => strTrim d
    | none => ""
  sizes := jsSizes pm.sizeGroups
  category := jsCategory pm.breadcrumbs
  gender := jsGender pm.pathname
  meta_url := pm.href
  breadcrumbs := pm.breadcrumbs.map strTrim

/-! ## The Python side of extraction (scraper.py lines 331-398) -/

/-- `AmericanEagleScraper.base_url`. -/
def base_url : String := "https://www.ae.com"

/-- Models `urllib.parse.urljoin` (an external library function) for
the reference forms this scraper can feed it against its absolute
https base: scheme-relative references take the base's scheme,
references carrying their own scheme (a `:` before any `/`) are
returned unchanged, rooted paths replace the base's path, and anything
else is resolved as a relative path directly under the base authority
(whose own path is empty). -/
def urljoin (base ref : String) : String :=
  if ref = "" then base
  else if startsWithStr ref "//" then "https:" ++ ref
  else if containsSeq [':'] (ref.toList.takeWhile (fun c => c != '/')) then ref
  else if startsWithStr ref "/" then base ++ ref
  else base ++ "/" ++ ref

/-- Models `hashlib.sha256(url.encode()).hexdigest()` (an external
library function) as an opaque injective deterministic function of the
URL; no claim depends on the hash's value, only on the record carrying
one. -/
def generate_product_id (product_url : String) : String :=
  "sha256-" ++ product_url

/-- The record handed to the persistence sink (the `result` dictionary,
lines 364-380, plus the optional `embedding` key). -/
structure ProductRecord where
  id : String
  source : String
  product_url : String
  affiliate_url : Option String
  image_url : String
  brand : String
  title : String
  description : Option String
  category : Option String
  gender : String
  price : Option ℚ
  currency : String
  size : Option String
  second_hand : Bool
  metadata : String × List String
  embedding : Option (List Float)

/-- `ImageEmbedder.generate_embedding` (lines 47-85).  The network
download, image decode and model forward pass are the external
embedding provider; its outcome is the oracle input `raw` (`none` when
any of those steps raised, `some v` the normalized vector otherwise).
The function's own logic is the 768-dimension check. -/
def generate_embedding (raw : Option (List Float)) : Option (List Float) :=
  match raw with
  | none => none
  | some v => if v.length = 768 then some v else none

/-- The resolved image URL (lines 353-356): URLs that do not start with
`http` are resolved against the base URL. -/
def resolveImage (base s : String) : String :=
  if startsWithStr s "http" then s else urljoin base s

/-- Lines 384-390: attach the embedding to the result when the embedder
returned a truthy (non-`None`, non-empty) vector; otherwise leave the
record without one. -/
def attachEmbedding (r : ProductRecord) (embedRaw : Option (List Float)) : ProductRecord :=
  match generate_embedding embedRaw with
  | some e => if e.isEmpty then r else { r with embedding := some e }
  | none => r

/-- `extract_product_data`, Python part (lines 331-398), applied to the
snippet's result dictionary `jd` and the embedder oracle outcome
`embedRaw`.  Returns `none` exactly where the Python returns `None`. -/
def extract_product_data (base product_url : String) (jd : JsData)
    (embedRaw : Option (List Float)) : Option ProductRecord :=
  -- line 332: `if not product_data.get('title'): return None`
  if jd.title.getD "" = "" then none
  -- line 336: `if not product_data.get('image_url'): return None`
  else if jd.image_url = "" then none
  else
    -- lines 341-350
    let price := parse_price jd.price_text
    -- lines 352-359 (the `if image_url:` guard is true here: the
    -- earlier check returned on an empty image URL)
    let image_url := resolveImage base jd.image_url
    if ¬ (startsWithStr image_url "http" = true) then none
    else
      -- lines 362-380
      let r : ProductRecord :=
        { id := generate_product_id product_url
          source := "scraper"
          product_url := product_url
          affiliate_url := none
          image_url := image_url
          brand := "American Eagle"
          title := strTrim (jd.title.getD "")
          description := if jd.description ≠ "" then some (strTrim jd.description) else none
          category := if jd.category ≠ "" then some (strTrim jd.category) else none
          gender := jd.gender
          price := price
          currency := jd.currency
          size := if jd.sizes ≠ [] then some (String.intercalate ", " jd.sizes) else none
          second_hand := false
          metadata := (jd.meta_url, jd.breadcrumbs)
          embedding := none }
      -- lines 382-391: attach the embedding when truthy; failure (or a
      -- dimension mismatch folded into `none`) leaves the record as is
      some (if image_url ≠ "" then attachEmbedding r embedRaw else r)

/-- The whole extractor: evaluated snippet composed with the Python
validation and record construction. -/
def extract_full (base product_url : String) (pm : PageModel)
    (embedRaw : Option (List Float)) : Option ProductRecord :=
  extract_product_data base product_url (jsExtract pm) embedRaw

/-- An absolute HTTP(S) URL in the sense the spec uses the phrase: it
carries an explicit `http://` or `https://` scheme.  (Stated from the
spec's words, for comparison with what the code actually checks.) -/
def isAbsoluteHttpUrl (s : String) : Bool :=
  startsWithStr s "http://" || startsWithStr s "https://"

/-! ## The listing walker (`scroll_and_load_products`, lines 158-221)

Each `while` iteration scrolls, reads `document.body.scrollHeight` and
harvests the product anchors.  What the page answers at each iteration
is the renderer oracle `ScrollEnv`. -/

/-- What the category page answers at scroll iteration `t`:
`height t` is `document.body.scrollHeight`, `urls t` the resolved
`link.href` values of the anchors `a[href*="/p/"]` currently in the
DOM. -/
structure ScrollEnv where
  height : Nat → Nat
  urls : Nat → List String

/-- The snippet of lines 185-190: map anchors to `href` and keep those
containing `"/p/"`. -/
def jsCollect (hrefs : List String) : List String :=
  hrefs.filter (fun h => strContains h "/p/")

/-- Python `if max_products and len(product_urls) >= max_products`:
`None` and `0` are falsy. -/
def capHit (mp : Option Int) (n : Nat) : Bool :=
  match mp with
  | none => false
  | some m => if m = 0 then false else decide (m ≤ (n : Int))

/-- The `for url in current_urls` loop (lines 193-199): append unseen
URLs, breaking as soon as the cap check fires after an append. -/
def addUrls (mp : Option Int) : List String → List String → List String
  | acc, [] => acc
  | acc, u :: rest =>
    if u ∈ acc then addUrls mp acc rest
    else if capHit mp (acc ++ [u]).length then acc ++ [u]
    else addUrls mp (acc ++ [u]) rest

/-- The mutable state of one walk: accumulated URLs, `last_height`,
`scroll_attempts`, `no_change_count`. -/
structure WalkSt where
  product_urls : List String
  last_height : Nat
  scroll_attempts : Nat
  no_change_count : Nat

/-- The `while scroll_attempts < max_scrolls` loop (lines 176-218).
`fuel` is a structural-recursion bound only: every non-breaking
iteration increments `scroll_attempts`, so from the initial state with
`fuel = max_scrolls + 1` the `0` case is never reached (proved below as
`scrollLoop_fuel`). -/
def scrollLoop (env : ScrollEnv) (max_scrolls : Nat) (mp : Option Int) :
    Nat → WalkSt → WalkSt
  | 0, st => st
  | fuel + 1, st =>
    if st.scroll_attempts < max_scrolls then
      -- lines 202-203: cap reached → break
      if capHit mp (addUrls mp st.product_urls (jsCollect (env.urls st.scroll_attempts))).length then
        { st with
            product_urls := addUrls mp st.product_urls (jsCollect (env.urls st.scroll_attempts)) }
      -- lines 206-212: three iterations at an unchanged height → break
      else if env.height st.scroll_attempts = st.last_height then
        if st.no_change_count + 1 ≥ 3 then
          { st with
              product_urls := addUrls mp st.product_urls (jsCollect (env.urls st.scroll_attempts))
              no_change_count := st.no_change_count + 1 }
        else
          scrollLoop env max_scrolls mp fuel
            { product_urls := addUrls mp st.product_urls (jsCollect (env.urls st.scroll_attempts))
              last_height := env.height st.scroll_attempts
              scroll_attempts := st.scroll_attempts + 1
              no_change_count := st.no_change_count + 1 }
      else
        scrollLoop env max_scrolls mp fuel
          { product_urls := addUrls mp st.product_urls (jsCollect (env.urls st.scroll_attempts))
            last_height := env.height st.scroll_attempts
            scroll_attempts := st.scroll_attempts + 1
            no_change_count := 0 }
    else st

/-- `product_urls = []`, `last_height = 0`, `scroll_attempts = 0`,
`no_change_count = 0` (lines 169-172). -/
def walkInit : WalkSt :=
  { product_urls := [], last_height := 0, scroll_attempts := 0, no_change_count := 0 }

/-- `scroll_and_load_products` (line 158; `max_scrolls` defaults to 50
at the call site).  Line 221 returns `list(set(product_urls))`: the
accumulator is duplicate-free by construction, so the Python `set`
round-trip only reorders it arbitrarily; we return the accumulator,
whose membership, duplicate-freedom and size agree with any such
reordering. -/
def scroll_and_load_products (env : ScrollEnv) (max_scrolls : Nat)
    (mp : Option Int) : List String :=
  (scrollLoop env max_scrolls mp (max_scrolls + 1) walkInit).product_urls

/-! ## The crawl orchestrator (`scrape_category` / `run`,
lines 144-483) -/

/-- `self.scraped_urls` and `self.failed_urls` (lines 151-152),
modelled as duplicate-free lists with set membership. -/
structure CrawlState where
  scraped : List String
  failed : List String

/-- Python `set.add`. -/
def addUrl (u : String) (l : List String) : List String :=
  if u ∈ l then l else u :: l

/-- What processing one product URL runs into, at the boundary to the
renderer, embedder and sink:
* `navFail`: `page.goto`/`page.evaluate` raised inside
  `extract_product_data`, whose `except` returns `None` (lines 394-398);
* `page pm embedRaw upsertOk`: the page rendered as `pm`, the embedder
  oracle answered `embedRaw`, and `upsert_product` returned `upsertOk`
  (its own `except` folds sink errors into `False`, lines 139-141);
* `raise`: an exception escaped the per-product body and was caught by
  the `except` of lines 447-450. -/
inductive ProductFetch where
  | navFail
  | page (pm : PageModel) (embedRaw : Option (List Float)) (upsertOk : Bool)
  | raise

/-- What `extract_product_data` returns for one product given the
boundary outcome. -/
def extract_result (product_url : String) : ProductFetch → Option ProductRecord
  | .navFail => none
  | .page pm embedRaw _ => extract_full base_url product_url pm embedRaw
  | .raise => none

/-- One iteration of the per-product loop of `scrape_category`
(lines 422-450). -/
def processProduct (st : CrawlState) (product_url : String)
    (f : ProductFetch) : CrawlState :=
  -- lines 423-424: skip URLs already scraped this run
  if product_url ∈ st.scraped then st
  else
    match f with
    | .raise =>
      -- lines 447-450: exception → failed
      { st with failed := addUrl product_url st.failed }
    | .navFail =>
      -- extraction returned `None` (its `except` swallowed the
      -- navigation error), lines 440-442: failed
      { st with failed := addUrl product_url st.failed }
    | .page pm embedRaw upsertOk =>
      match extract_result product_url (ProductFetch.page pm embedRaw upsertOk) with
      | some pd =>
        -- line 430: `if product_data and product_data.get('title')`
        if pd.title ≠ "" then
          -- lines 432-439: sink outcome decides the set
          if upsertOk then { st with scraped := addUrl product_url st.scraped }
          else { st with failed := addUrl product_url st.failed }
        else { st with failed := addUrl product_url st.failed }
      | none =>
        -- lines 440-442: extraction failed → failed
        { st with failed := addUrl product_url st.failed }

/-- The renderer/embedder/sink behaviour backing one category: the
scroll oracle of its listing page and, per product URL, the boundary
outcome of processing it. -/
structure CategoryEnv where
  scroll : ScrollEnv
  fetch : String → ProductFetch

/-- One category either fails to load (`page.goto`/the walk raised:
`scrape_category` has no `except`, only a `finally` closing the page,
lines 412-453, so the exception propagates) or loads and behaves as
`env`. -/
inductive CategoryResult where
  | loadFail
  | ok (env : CategoryEnv)

/-- The product URLs a category contributes (the walker's output;
empty when the category never loads). -/
def urlsOfCat (mp : Option Int) : CategoryResult → List String
  | .loadFail => []
  | .ok env => scroll_and_load_products env.scroll 50 mp

/-- `scrape_category` (lines 400-453): walk the listing, then fold the
per-product step over the discovered URLs.  `Except.error` carries the
state at the moment the unhandled load error propagates. -/
def scrape_category (mp : Option Int) (st : CrawlState) :
    CategoryResult → Except CrawlState CrawlState
  | .loadFail => Except.error st
  | .ok env =>
    Except.ok ((scroll_and_load_products env.scroll 50 mp).foldl
      (fun s u => processProduct s u (env.fetch u)) st)

/-- The `for category_url in category_urls` loop of `run`
(lines 467-473).  `run` wraps it in `try/finally` with no `except`, so
an error from `scrape_category` stops the loop (the browser is still
closed). Returns the final state and how many categories were
attempted. -/
def runAux (mp : Option Int) (st : CrawlState) :
    List CategoryResult → CrawlState × Nat
  | [] => (st, 0)
  | c :: rest =>
    match scrape_category mp st c with
    | Except.error st2 => (st2, 1)
    | Except.ok st2 =>
      let p := runAux mp st2 rest
      (p.1, p.2 + 1)

/-- `run` (lines 455-483) from the cold start of `__init__`
(lines 151-152: both sets empty). -/
def run (mp : Option Int) (cats : List CategoryResult) : CrawlState × Nat :=
  runAux mp { scraped := [], failed := [] } cats

/-- All product URLs the walker would contribute across a run's
categories, in order. -/
def allUrls (mp : Option Int) : List CategoryResult → List String
  | [] => []
  | c :: rest => urlsOfCat mp c ++ allUrls mp rest

/-- Set disjointness on the list-modelled URL sets. -/
def DisjointUrls (a b : List String) : Prop :=
  ∀ x, x ∈ a → x ∉ b

/-! ## Concrete inputs used by witnesses and counterexamples -/

/-- A category page that reports a strictly decreasing document height
on every scroll iteration (so the height never fails to change) and no
anchors. -/
def c8Env : ScrollEnv := ⟨fun t => 100 - t, fun _ => []⟩

/-- A product page whose primary image element has no `src` property
and a `data-src` attribute of `"httpjunk.jpg"`: a string that passes
the code's `startswith('http')` validation without being an absolute
HTTP(S) URL. -/
def c1Page : PageModel :=
  { titleEls := [some "Tee"], priceEl := none, bodyText := ""
    primaryImg := some { src := "", data_src := some "httpjunk.jpg" }
    allImgs := [], descEl := none, sizeGroups := [], breadcrumbs := []
    pathname := "/p/x", href := "h" }

/-- A product page with a valid title and an absolute https image. -/
def c4Page : PageModel :=
  { titleEls := [some "Tee"], priceEl := none, bodyText := ""
    primaryImg := some { src := "https://img.ae.com/a.jpg", data_src := none }
    allImgs := [], descEl := none, sizeGroups := [], breadcrumbs := []
    pathname := "/p/x", href := "h" }

/-- A category whose page fails to render anything useful: constant
height, no anchors, navigation failure on every product. -/
def trivCatEnv : CategoryEnv :=
  ⟨⟨fun _ => 0, fun _ => []⟩, fun _ => ProductFetch.navFail⟩

/-- The one product URL of the two-category counterexample run. -/
def c2url : String := "https://www.ae.com/us/en/p/1"

/-- A product page for `c2url` that extracts successfully. -/
def c2Page : PageModel :=
  { titleEls := [some "Tee"], priceEl := none, bodyText := ""
    primaryImg := some { src := "https://img.ae.com/a.jpg", data_src := none }
    allImgs := [], descEl := none, sizeGroups := [], breadcrumbs := []
    pathname := "/us/en/p/1", href := "h" }

/-- A category listing `c2url` whose product page fails to load
(extraction returns `None`, the URL is marked failed). -/
def c2EnvA : CategoryEnv :=
  ⟨⟨fun _ => 0, fun _ => [c2url]⟩, fun _ => ProductFetch.navFail⟩

/-- A category listing `c2url` whose product page extracts and upserts
successfully. -/
def c2EnvB : CategoryEnv :=
  ⟨⟨fun _ => 0, fun _ => [c2url]⟩, fun _ => ProductFetch.page c2Page none true⟩

/-- A one-category run whose product URLs are pairwise distinct. -/
def c2wCats : List CategoryResult := [CategoryResult.ok c2EnvB]

/-! ## Lemmas about the listing walker -/

theorem mem_addUrls {mp : Option Int} {acc l : List String} {u : String}
    (h : u ∈ addUrls mp acc l) : u ∈ acc ∨ u ∈ l := by
  induction l generalizing acc with
  | nil => exact Or.inl h
  | cons a rest ih =>
    rw [addUrls] at h
    by_cases ha : a ∈ acc
    · rw [if_pos ha] at h
      rcases ih h with h1 | h1
      · exact Or.inl h1
      · exact Or.inr (List.mem_cons_of_mem _ h1)
    · rw [if_neg ha] at h
      by_cases hc : capHit mp (acc ++ [a]).length = true
      · rw [if_pos hc] at h
        rcases List.mem_append.mp h with h1 | h1
        · exact Or.inl h1
        · exact Or.inr (List.mem_cons.mpr (Or.inl (List.mem_singleton.mp h1)))
      · rw [if_neg hc] at h
        rcases ih h with h1 | h1
        · rcases List.mem_append.mp h1 with h2 | h2
          · exact Or.inl h2
          · exact Or.inr (List.mem_cons.mpr (Or.inl (List.mem_singleton.mp h2)))
        · exact Or.inr (List.mem_cons_of_mem _ h1)

theorem nodup_addUrls {mp : Option Int} {acc : List String} (l : List String)
    (h : acc.Nodup) : (addUrls mp acc l).Nodup := by
  induction l generalizing acc with
  | nil => exact h
  | cons a rest ih =>
    rw [addUrls]
    by_cases ha : a ∈ acc
    · rw [if_pos ha]; exact ih h
    · rw [if_neg ha]
      have happ : (acc ++ [a]).Nodup := by
        rw [List.nodup_append]
        exact ⟨h, List.nodup_singleton a, fun x hx hx1 => ha (List.mem_singleton.mp hx1 ▸ hx)⟩
      by_cases hc : capHit mp (acc ++ [a]).length = true
      · rw [if_pos hc]; exact happ
      · rw [if_neg hc]; exact ih happ

theorem capHit_false_lt {m : Int} {n : Nat} (hm : 0 < m)
    (h : ¬ capHit (some m) n = true) : (n : Int) < m := by
  rw [capHit] at h
  rw [if_neg (by omega : ¬ m = 0)] at h
  simpa using lt_of_not_le (by simpa using h)

theorem length_addUrls_le {m : Int} (hm : 0 < m) :
    ∀ (l acc : List String), (acc.length : Int) < m →
      ((addUrls (some m) acc l).length : Int) ≤ m := by
  intro l
  induction l with
  | nil => intro acc h; rw [addUrls]; exact le_of_lt h
  | cons a rest ih =>
    intro acc h
    rw [addUrls]
    by_cases ha : a ∈ acc
    · rw [if_pos ha]; exact ih acc h
    · rw [if_neg ha]
      by_cases hc : capHit (some m) (acc ++ [a]).length = true
      · rw [if_pos hc]
        simp only [List.length_append, List.length_singleton]
        push_cast
        omega
      · rw [if_neg hc]
        exact ih _ (capHit_false_lt hm hc)

theorem scrollLoop_mem {env : ScrollEnv} {ms : Nat} {mp : Option Int}
    (P : String → Prop)
    (henv : ∀ t u, u ∈ jsCollect (env.urls t) → P u) :
    ∀ (fuel : Nat) (st : WalkSt), (∀ u ∈ st.product_urls, P u) →
      ∀ u ∈ (scrollLoop env ms mp fuel st).product_urls, P u := by
  intro fuel
  induction fuel with
  | zero => intro st hst; simpa [scrollLoop] using hst
  | succ fuel ih =>
    intro st hst u hu
    have hstep : ∀ v ∈ addUrls mp st.product_urls
        (jsCollect (env.urls st.scroll_attempts)), P v := by
      intro v hv
      rcases mem_addUrls hv with h1 | h1
      · exact hst v h1
      · exact henv _ v h1
    rw [scrollLoop] at hu
    split at hu
    · split at hu
      · exact hstep u hu
      · split at hu
        · split at hu
          · exact hstep u hu
          · exact ih _ hstep u hu
        · exact ih _ hstep u hu
    · exact hst u hu

theorem scrollLoop_nodup {env : ScrollEnv} {ms : Nat} {mp : Option Int} :
    ∀ (fuel : Nat) (st : WalkSt), st.product_urls.Nodup →
      (scrollLoop env ms mp fuel st).product_urls.Nodup := by
  intro fuel
  induction fuel with
  | zero => intro st hst; simpa [scrollLoop] using hst
  | succ fuel ih =>
    intro st hst
    have hstep := @nodup_addUrls mp st.product_urls
      (jsCollect (env.urls st.scroll_attempts)) hst
    rw [scrollLoop]
    split
    · split
      · exact hstep
      · split
        · split
          · exact hstep
          · exact ih _ hstep
        · exact ih _ hstep
    · exact hst

theorem scrollLoop_length_le {env : ScrollEnv} {ms : Nat} {m : Int} (hm : 0 < m) :
    ∀ (fuel : Nat) (st : WalkSt), (st.product_urls.length : Int) < m →
      (((scrollLoop env ms (some m) fuel st).product_urls.length : Int)) ≤ m := by
  intro fuel
  induction fuel with
  | zero => intro st hst; rw [scrollLoop]; exact le_of_lt hst
  | succ fuel ih =>
    intro st hst
    have hstep := length_addUrls_le hm
      (jsCollect (env.urls st.scroll_attempts)) st.product_urls hst
    rw [scrollLoop]
    split
    · split
      · exact hstep
      · rename_i hcap
        have hlt := capHit_false_lt hm hcap
        split
        · split
          · exact hstep
          · exact ih _ hlt
        · exact ih _ hlt
    · exact le_of_lt hst

theorem scrollLoop_attempts_le {env : ScrollEnv} {ms : Nat} {mp : Option Int} :
    ∀ (fuel : Nat) (st : WalkSt), st.scroll_attempts ≤ ms →
      (scrollLoop env ms mp fuel st).scroll_attempts ≤ ms := by
  intro fuel
  induction fuel with
  | zero => intro st hst; simpa [scrollLoop] using hst
  | succ fuel ih =>
    intro st hst
    rw [scrollLoop]
    split
    · rename_i hlt
      split
      · exact hst
      · split
        · split
          · exact hst
          · exact ih _ (by show st.scroll_attempts + 1 ≤ ms; omega)
        · exact ih _ (by show st.scroll_attempts + 1 ≤ ms; omega)
    · exact hst

theorem scrollLoop_fuel {env : ScrollEnv} {ms : Nat} {mp : Option Int} :
    ∀ (f1 f2 : Nat) (st : WalkSt),
      ms - st.scroll_attempts < f1 → ms - st.scroll_attempts < f2 →
      scrollLoop env ms mp f1 st = scrollLoop env ms mp f2 st := by
  intro f1
  induction f1 with
  | zero => intro f2 st h1; omega
  | succ f1 ih =>
    intro f2 st h1 h2
    match f2 with
    | 0 => omega
    | f2 + 1 =>
      rw [scrollLoop, scrollLoop]
      split
      · rename_i hlt
        split
        · rfl
        · split
          · split
            · rfl
            · exact ih f2 _
                (by show ms - (st.scroll_attempts + 1) < f1; omega)
                (by show ms - (st.scroll_attempts + 1) < f2; omega)
          · exact ih f2 _
              (by show ms - (st.scroll_attempts + 1) < f1; omega)
              (by show ms - (st.scroll_attempts + 1) < f2; omega)
      · rfl

theorem scrollLoop_stop {env : ScrollEnv} {ms : Nat} {mp : Option Int} :
    ∀ (fuel : Nat) (st : WalkSt), ms < st.scroll_attempts + fuel →
      capHit mp (scrollLoop env ms mp fuel st).product_urls.length = true
        ∨ 3 ≤ (scrollLoop env ms mp fuel st).no_change_count
        ∨ ms ≤ (scrollLoop env ms mp fuel st).scroll_attempts := by
  intro fuel
  induction fuel with
  | zero =>
    intro st h
    rw [scrollLoop]
    exact Or.inr (Or.inr (by omega))
  | succ fuel ih =>
    intro st h
    rw [scrollLoop]
    split
    · split
      · rename_i hcap
        exact Or.inl hcap
      · split
        · split
          · rename_i hncc
            exact Or.inr (Or.inl (by simpa using hncc))
          · exact ih _ (by show ms < st.scroll_attempts + 1 + fuel; omega)
        · exact ih _ (by show ms < st.scroll_attempts + 1 + fuel; omega)
    · rename_i hlt
      exact Or.inr (Or.inr (by omega))

theorem scrollLoop_const_height {env : ScrollEnv} {ms : Nat} {mp : Option Int}
    {H : Nat} (hH : ∀ t, env.height t = H) :
    ∀ (fuel : Nat) (st : WalkSt), st.last_height = H →
      (scrollLoop env ms mp fuel st).scroll_attempts
        ≤ st.scroll_attempts + (2 - st.no_change_count) := by
  intro fuel
  induction fuel with
  | zero => intro st hst; rw [scrollLoop]; omega
  | succ fuel ih =>
    intro st hst
    rw [scrollLoop]
    split
    · split
      · show st.scroll_attempts ≤ st.scroll_attempts + (2 - st.no_change_count)
        omega
      · split
        · split
          · show st.scroll_attempts ≤ st.scroll_attempts + (2 - st.no_change_count)
            omega
          · rename_i hncc
            have h2 : (scrollLoop env ms mp fuel
                { product_urls := addUrls mp st.product_urls
                    (jsCollect (env.urls st.scroll_attempts))
                  last_height := env.height st.scroll_attempts
                  scroll_attempts := st.scroll_attempts + 1
                  no_change_count := st.no_change_count + 1 }).scroll_attempts
                ≤ (st.scroll_attempts + 1) + (2 - (st.no_change_count + 1)) :=
              ih _ (by show env.height st.scroll_attempts = H
                       exact hH st.scroll_attempts)
            simp only [not_le] at hncc
            omega
        · rename_i hne
          exact absurd (by rw [hH st.scroll_attempts, hst]) hne
    · show st.scroll_attempts ≤ st.scroll_attempts + (2 - st.no_change_count)
      omega

/-- On a page with a constant height, the walk makes at most three
scroll attempts from any starting state. -/
theorem scrollLoop_const_height_any {env : ScrollEnv} {ms : Nat} {mp : Option Int}
    {H : Nat} (hH : ∀ t, env.height t = H) :
    ∀ (fuel : Nat) (st : WalkSt),
      (scrollLoop env ms mp fuel st).scroll_attempts ≤ st.scroll_attempts + 3 := by
  intro fuel
  cases fuel with
  | zero => intro st; rw [scrollLoop]; omega
  | succ fuel =>
    intro st
    rw [scrollLoop]
    split
    · split
      · show st.scroll_attempts ≤ st.scroll_attempts + 3
        omega
      · split
        · split
          · show st.scroll_attempts ≤ st.scroll_attempts + 3
            omega
          · refine le_trans (scrollLoop_const_height hH fuel _ (hH _)) ?_
            show st.scroll_attempts + 1 + (2 - (st.no_change_count + 1))
              ≤ st.scroll_attempts + 3
            omega
        · refine le_trans (scrollLoop_const_height hH fuel _ (hH _)) ?_
          show st.scroll_attempts + 1 + (2 - 0) ≤ st.scroll_attempts + 3
          omega
    · omega

/-! ## Claims C6-C9: the listing walker -/

/-- **C6**: every category walk returns a duplicate-free list of URLs;
every element contains the product-path marker `"/p/"`; and, granted
the renderer boundary's guarantee that the `link.href` values it
reports are absolute HTTP(S) URLs, every element is an absolute HTTP(S)
URL. -/
theorem c6_walker_urls (env : ScrollEnv) (ms : Nat) (mp : Option Int) :
    (scroll_and_load_products env ms mp).Nodup
    ∧ (∀ u ∈ scroll_and_load_products env ms mp, strContains u "/p/" = true)
    ∧ ((∀ t u, u ∈ env.urls t → isAbsoluteHttpUrl u = true) →
        ∀ u ∈ scroll_and_load_products env ms mp, isAbsoluteHttpUrl u = true) := by
  refine ⟨?_, ?_, ?_⟩
  · exact scrollLoop_nodup _ _ (by simp [walkInit])
  · refine scrollLoop_mem _ ?_ _ _ (by simp [walkInit])
    intro t u hu
    rw [jsCollect] at hu
    exact (List.mem_filter.mp hu).2
  · intro habs
    refine scrollLoop_mem _ ?_ _ _ (by simp [walkInit])
    intro t u hu
    rw [jsCollect] at hu
    exact habs t u (List.mem_filter.mp hu).1

/-- **C7**, counterexample: with the cap `0` supplied, the walker still
returns one URL (Python `if max_products and ...` treats `0` as no
cap), so the returned set exceeds the supplied cap. -/
theorem c7_counterexample :
    (scroll_and_load_products ⟨fun _ => 0, fun _ => ["https://www.ae.com/us/en/p/a"]⟩
        50 (some 0)).length = 1
    ∧ ¬ (((scroll_and_load_products ⟨fun _ => 0, fun _ => ["https://www.ae.com/us/en/p/a"]⟩
        50 (some 0)).length : Int) ≤ 0) := by
  decide

/-- **C7** (amended): whenever a *positive* `maxProducts` cap is
supplied, the walker's returned set never exceeds the cap, for every
sequence of heights and URLs the page yields. -/
theorem c7_cap_positive (env : ScrollEnv) (ms : Nat) (m : Int) (hm : 0 < m) :
    ((scroll_and_load_products env ms (some m)).length : Int) ≤ m :=
  scrollLoop_length_le hm _ _ (by simpa [walkInit] using hm)

/-- Witness for `c7_cap_positive` at a growing page with a fresh URL
per iteration and cap 3. -/
theorem c7_cap_positive_witness :
    ((scroll_and_load_products ⟨fun t => t + 1, fun t => ["https://x/p/" ++ toString t]⟩
        50 (some 3)).length : Int) ≤ 3 :=
  c7_cap_positive _ 50 3 (by decide)

/-- **C8**, counterexample: on a page whose reported height strictly
*decreases* at every iteration the height fails to increase on every
one of the 10 iterations, yet the walk only stops at the attempt cap
(10 attempts, `no_change_count` never reaching 3) — `current_height ==
last_height` is an equality test, not a failed-to-increase test. -/
theorem c8_counterexample :
    (∀ t, t < 12 → c8Env.height (t + 1) < c8Env.height t)
    ∧ (scrollLoop c8Env 10 none 11 walkInit).scroll_attempts = 10
    ∧ (scrollLoop c8Env 10 none 11 walkInit).no_change_count = 0 := by
  decide

/-- **C8** (amended): the walk stops only when the supplied product cap
is hit, or when the height has been *exactly unchanged* for three
consecutive iterations, or when the attempt cap is reached; and on a
page whose height is the same at every iteration the walk stops within
3 attempts, before any larger attempt cap. -/
theorem c8_stop_conditions (env : ScrollEnv) (ms : Nat) (mp : Option Int) :
    (capHit mp (scrollLoop env ms mp (ms + 1) walkInit).product_urls.length = true
      ∨ 3 ≤ (scrollLoop env ms mp (ms + 1) walkInit).no_change_count
      ∨ ms ≤ (scrollLoop env ms mp (ms + 1) walkInit).scroll_attempts)
    ∧ ((∀ t, env.height t = env.height 0) →
        (scrollLoop env ms mp (ms + 1) walkInit).scroll_attempts ≤ 3) := by
  constructor
  · exact scrollLoop_stop _ _ (by show ms < 0 + (ms + 1); omega)
  · intro hconst
    have h3 := @scrollLoop_const_height_any env ms mp (env.height 0) hconst (ms + 1) walkInit
    simpa [walkInit] using h3

/-- **C9**: the walk always terminates within `maxScrollAttempts`
iterations, for *every* page behaviour (in particular one whose height
strictly increases forever and which yields fresh URLs forever, with no
product cap): past `max_scrolls + 1` steps the loop's value no longer
depends on the recursion bound, and the final attempt counter never
exceeds `max_scrolls`. -/
theorem c9_terminates (env : ScrollEnv) (ms : Nat) (mp : Option Int) :
    (∀ fuel, ms + 1 ≤ fuel →
        scrollLoop env ms mp fuel walkInit = scrollLoop env ms mp (ms + 1) walkInit)
    ∧ (scrollLoop env ms mp (ms + 1) walkInit).scroll_attempts ≤ ms := by
  constructor
  · intro fuel hf
    exact scrollLoop_fuel fuel (ms + 1) walkInit
      (by show ms - 0 < fuel; omega) (by show ms - 0 < ms + 1; omega)
  · exact scrollLoop_attempts_le _ _ (by show (0 : Nat) ≤ ms; omega)

/-! ## Lemmas about trimming -/

theorem dropWhile_eq_self_of_head {p : Char → Bool} {l : List Char}
    (h : ∀ a, l.head? = some a → p a = false) : l.dropWhile p = l := by
  cases l with
  | nil => rfl
  | cons a t =>
    rw [List.dropWhile_cons, if_neg]
    simp [h a rfl]

theorem head?_dropWhile_false (p : Char → Bool) (l : List Char) :
    ∀ a, (l.dropWhile p).head? = some a → p a = false := by
  intro a ha
  have h := List.head?_dropWhile_not p l
  rw [ha] at h
  exact h

theorem getLast?_dropWhile_of_ne_nil {p : Char → Bool} {m : List Char}
    (h : m.dropWhile p ≠ []) : (m.dropWhile p).getLast? = m.getLast? := by
  conv_rhs => rw [← List.takeWhile_append_dropWhile p m]
  rw [List.getLast?_append_of_ne_nil _ h]

theorem trimChars_idem (l : List Char) : trimChars (trimChars l) = trimChars l := by
  have hstep1 : (trimChars l).dropWhile isWs = trimChars l := by
    apply dropWhile_eq_self_of_head
    intro a ha
    rw [trimChars, List.head?_reverse] at ha
    by_cases hnil : ((l.dropWhile isWs).reverse.dropWhile isWs) = []
    · rw [hnil] at ha; simp at ha
    · rw [getLast?_dropWhile_of_ne_nil hnil, List.getLast?_reverse] at ha
      exact head?_dropWhile_false isWs l a ha
  rw [trimChars, hstep1, trimChars, List.reverse_reverse]
  rw [dropWhile_eq_self_of_head (head?_dropWhile_false isWs (l.dropWhile isWs).reverse)]

theorem strTrim_idem (s : String) : strTrim (strTrim s) = strTrim s := by
  rw [strTrim, strTrim]
  exact congrArg String.mk (trimChars_idem s.toList)

/-! ## Lemmas about the extractor -/

theorem jsTitle_spec : ∀ {l : List (Option String)} {s : String},
    jsTitle l = some s → strTrim s = s ∧ s ≠ ""
  | [], s => by intro h; exact absurd h (by rw [jsTitle]; simp)
  | none :: rest, s => by
    intro h
    rw [jsTitle] at h
    exact jsTitle_spec h
  | some t :: rest, s => by
    intro h
    rw [jsTitle] at h
    by_cases ht : strTrim t ≠ ""
    · rw [if_pos ht] at h
      have hs : s = strTrim t := (Option.some.inj h).symm
      subst hs
      exact ⟨strTrim_idem t, ht⟩
    · rw [if_neg ht] at h
      exact jsTitle_spec h

theorem attachEmbedding_title (r : ProductRecord) (raw : Option (List Float)) :
    (attachEmbedding r raw).title = r.title := by
  rw [attachEmbedding]
  split
  · split <;> rfl
  · rfl

theorem attachEmbedding_image (r : ProductRecord) (raw : Option (List Float)) :
    (attachEmbedding r raw).image_url = r.image_url := by
  rw [attachEmbedding]
  split
  · split <;> rfl
  · rfl

theorem attachEmbedding_none (r : ProductRecord) : attachEmbedding r none = r := rfl

theorem attachEmbedding_badlen {v : List Float} (h : v.length ≠ 768) (r : ProductRecord) :
    attachEmbedding r (some v) = r := by
  rw [attachEmbedding, generate_embedding, if_neg h]

theorem generate_embedding_badlen {v : List Float} (h : v.length ≠ 768) :
    generate_embedding (some v) = none := by
  rw [generate_embedding, if_neg h]

/-- The three hard-failure conditions are exactly where the Python
returns `None` (lines 331-359). -/
theorem extract_pd_none_iff (base url : String) (jd : JsData)
    (raw : Option (List Float)) :
    extract_product_data base url jd raw = none ↔
      (jd.title.getD "" = "" ∨ jd.image_url = ""
        ∨ ¬ startsWithStr (resolveImage base jd.image_url) "http" = true) := by
  by_cases h1 : jd.title.getD "" = "" <;>
    by_cases h2 : jd.image_url = "" <;>
      by_cases h3 : startsWithStr (resolveImage base jd.image_url) "http" = true <;>
        simp [extract_product_data, h1, h2, h3]

/-- A returned record's title is the trimmed winning title candidate
and its image URL is the resolved one that passed the `http` check. -/
theorem extract_pd_some_spec {base url : String} {jd : JsData}
    {raw : Option (List Float)} {r : ProductRecord}
    (htitle : ∀ s, jd.title = some s → strTrim s = s ∧ s ≠ "")
    (h : extract_product_data base url jd raw = some r) :
    r.title ≠ "" ∧ startsWithStr r.image_url "http" = true := by
  rw [extract_product_data] at h
  by_cases h1 : jd.title.getD "" = ""
  · rw [if_pos h1] at h; exact absurd h (by simp)
  · rw [if_neg h1] at h
    by_cases h2 : jd.image_url = ""
    · rw [if_pos h2] at h; exact absurd h (by simp)
    · rw [if_neg h2] at h
      by_cases h3 : startsWithStr (resolveImage base jd.image_url) "http" = true
      · rw [if_neg (by simp [h3])] at h
        obtain ⟨s, hs⟩ : ∃ s, jd.title = some s := by
          cases ht : jd.title with
          | none => rw [ht] at h1; simp at h1
          | some s => exact ⟨s, rfl⟩
        obtain ⟨hts, htne⟩ := htitle s hs
        have hr := Option.some.inj h
        constructor
        · rw [← hr]
          split
          · rw [attachEmbedding_title]
            show strTrim (jd.title.getD "") ≠ ""
            rw [hs]
            show strTrim s ≠ ""
            rw [hts]; exact htne
          · show strTrim (jd.title.getD "") ≠ ""
            rw [hs]
            show strTrim s ≠ ""
            rw [hts]; exact htne
        · rw [← hr]
          split
          · rw [attachEmbedding_image]
            exact h3
          · exact h3
      · rw [if_pos (by simp [h3])] at h
        exact absurd h (by simp)

/-- With no embedder vector, a returned record has no embedding. -/
theorem extract_pd_embedding_none {base url : String} {jd : JsData} {r : ProductRecord}
    (h : extract_product_data base url jd none = some r) : r.embedding = none := by
  rw [extract_product_data] at h
  by_cases h1 : jd.title.getD "" = ""
  · rw [if_pos h1] at h; exact absurd h (by simp)
  · rw [if_neg h1] at h
    by_cases h2 : jd.image_url = ""
    · rw [if_pos h2] at h; exact absurd h (by simp)
    · rw [if_neg h2] at h
      by_cases h3 : startsWithStr (resolveImage base jd.image_url) "http" = true
      · rw [if_neg (by simp [h3])] at h
        have hr := Option.some.inj h
        rw [← hr]
        split
        · rw [attachEmbedding_none]
        · rfl
      · rw [if_pos (by simp [h3])] at h
        exact absurd h (by simp)

/-! ## Claims C1 and C4: extractor validation and embedding absence -/

/-- **C1**, counterexample: a product page whose image source is the
string `"httpjunk.jpg"` (reachable through the `data-src` attribute)
produces a returned record — `startswith('http')` accepts it — whose
image URL is *not* an absolute HTTP(S) URL, contradicting the claim
that every returned record's image URL is absolute HTTP(S). -/
theorem c1_counterexample :
    (extract_full base_url "https://www.ae.com/us/en/p/x" c1Page none).isSome = true
    ∧ (extract_full base_url "https://www.ae.com/us/en/p/x" c1Page none).map
        (fun r => isAbsoluteHttpUrl r.image_url) = some false := by
  exact ⟨rfl, rfl⟩

/-- **C1** (amended): every record the extractor returns has a
non-empty title and an image URL that starts with `"http"` (after
resolving non-`http`-prefixed sources against the base URL) — the
code's check is this prefix test, not full absolute-HTTP(S)
well-formedness — and extraction fails, producing no record at all,
exactly when the title is missing/empty, the image URL is missing, or
the resolved image URL does not start with `"http"`. -/
theorem c1_extract_validation (base url : String) (pm : PageModel)
    (raw : Option (List Float)) :
    (∀ r, extract_full base url pm raw = some r →
        r.title ≠ "" ∧ startsWithStr r.image_url "http" = true)
    ∧ (extract_full base url pm raw = none ↔
        ((jsExtract pm).title.getD "" = "" ∨ (jsExtract pm).image_url = ""
          ∨ ¬ startsWithStr (resolveImage base (jsExtract pm).image_url) "http" = true)) := by
  constructor
  · intro r h
    refine extract_pd_some_spec ?_ h
    intro s hs
    exact jsTitle_spec hs
  · exact extract_pd_none_iff base url (jsExtract pm) raw

/-- **C4**: a vector of the wrong dimension is folded into absence
(`generate_embedding` returns `None`), extraction returns exactly the
record it would return with no embedding at all, and any returned
record carries no embedding — the mismatch never discards the
record. -/
theorem c4_dimension_mismatch (base url : String) (pm : PageModel)
    (v : List Float) (h : v.length ≠ 768) :
    generate_embedding (some v) = none
    ∧ extract_full base url pm (some v) = extract_full base url pm none
    ∧ ∀ r, extract_full base url pm (some v) = some r → r.embedding = none := by
  refine ⟨generate_embedding_badlen h, ?_, ?_⟩
  · rw [extract_full, extract_full, extract_product_data, extract_product_data]
    simp only [attachEmbedding_badlen h, attachEmbedding_none]
  · intro r hr
    have hr2 : extract_product_data base url (jsExtract pm) none = some r := by
      rw [extract_full, extract_product_data] at hr
      rw [extract_product_data]
      simpa only [attachEmbedding_badlen h, attachEmbedding_none] using hr
    exact extract_pd_embedding_none hr2

/-- Witness for `c4_dimension_mismatch`: the empty vector (length 0)
on a page that extracts successfully. -/
theorem c4_dimension_mismatch_witness :
    generate_embedding (some ([] : List Float)) = none
    ∧ extract_full base_url "https://www.ae.com/us/en/p/x" c4Page (some ([] : List Float))
        = extract_full base_url "https://www.ae.com/us/en/p/x" c4Page none :=
  ⟨(c4_dimension_mismatch base_url "https://www.ae.com/us/en/p/x" c4Page [] (by decide)).1,
   (c4_dimension_mismatch base_url "https://www.ae.com/us/en/p/x" c4Page [] (by decide)).2.1⟩

/-! ## Lemmas about price parsing -/

theorem trimChars_subset (l : List Char) : trimChars l ⊆ l := by
  intro c hc
  rw [trimChars, List.mem_reverse] at hc
  have h1 := (List.dropWhile_sublist isWs).subset hc
  rw [List.mem_reverse] at h1
  exact (List.dropWhile_sublist isWs).subset h1

theorem fallbackMatch_none {l : List Char} (h : ∀ c ∈ l, c.isDigit = false) :
    fallbackMatch l = none := by
  induction l with
  | nil => rfl
  | cons a rest ih =>
    rw [fallbackMatch, if_neg (by simp [h a (List.mem_cons_self a rest)])]
    exact ih (fun c hc => h c (List.mem_cons_of_mem _ hc))

theorem isPriceChar_no_digit {c : Char} (hp : isPriceChar c = true)
    (hd : c.isDigit = false) : c = ',' := by
  simpa [isPriceChar, hd] using hp

theorem priceMatchAt_chars {l : List Char} (h : ∀ c ∈ l, c.isDigit = false) :
    ∀ c ∈ priceMatchAt l, c = ',' ∨ c = '.' := by
  intro c hc
  have htake : c ∈ l.takeWhile isPriceChar → c = ',' ∨ c = '.' := by
    intro h1
    have hp := List.mem_takeWhile_imp h1
    have hl := (List.takeWhile_sublist isPriceChar).subset h1
    exact Or.inl (isPriceChar_no_digit hp (h c hl))
  rw [priceMatchAt] at hc
  split at hc
  · rename_i rest heq
    rcases List.mem_append.mp hc with h1 | h1
    · exact htake h1
    · rcases List.mem_cons.mp h1 with h2 | h2
      · exact Or.inr h2
      · -- a digit inside the fractional run contradicts the no-digit hypothesis
        have hd := List.mem_takeWhile_imp h2
        have hrest : c ∈ l := by
          have hmem : c ∈ l.dropWhile isPriceChar := by
            rw [heq]
            exact List.mem_cons_of_mem _ ((List.takeWhile_sublist Char.isDigit).subset h2)
          exact (List.dropWhile_sublist isPriceChar).subset hmem
        rw [h c hrest] at hd
        exact absurd hd (by simp)
  · exact htake hc

theorem priceRegexMatch_chars {l : List Char} (h : ∀ c ∈ l, c.isDigit = false) :
    ∀ m, priceRegexMatch l = some m → ∀ c ∈ m, c = ',' ∨ c = '.' := by
  induction l with
  | nil => intro m hm; exact absurd hm (by rw [priceRegexMatch]; simp)
  | cons a rest ih =>
    intro m hm
    rw [priceRegexMatch] at hm
    by_cases ha : isPriceChar a = true
    · rw [if_pos ha] at hm
      rw [← Option.some.inj hm]
      exact priceMatchAt_chars h
    · rw [if_neg ha] at hm
      exact ih (fun c hc => h c (List.mem_cons_of_mem _ hc)) m hm

theorem replaceFirstComma_chars {m : List Char} (h : ∀ c ∈ m, c = ',' ∨ c = '.') :
    ∀ c ∈ replaceFirstComma m, c = ',' ∨ c = '.' := by
  induction m with
  | nil => intro c hc; exact absurd hc (by rw [replaceFirstComma]; simp)
  | cons a rest ih =>
    intro c hc
    rw [replaceFirstComma] at hc
    by_cases ha : a = ','
    · rw [if_pos ha] at hc
      exact h c (List.mem_cons_of_mem _ hc)
    · rw [if_neg ha] at hc
      rcases List.mem_cons.mp hc with h1 | h1
      · rw [h1]; exact h a (List.mem_cons_self a rest)
      · exact ih (fun d hd => h d (List.mem_cons_of_mem _ hd)) c h1

theorem pyFloat_no_digit {m : List Char} (hne : m ≠ [])
    (h : ∀ c ∈ m, c = ',' ∨ c = '.') : pyFloat m = none := by
  have htake : ∀ c ∈ m.takeWhile (fun c => c != '.'), c = ',' := by
    intro c hc
    have hp := List.mem_takeWhile_imp hc
    have hl := (List.takeWhile_sublist (fun c => c != '.')).subset hc
    rcases h c hl with h1 | h1
    · exact h1
    · rw [h1] at hp; exact absurd hp (by decide)
  rw [pyFloat]
  split
  · rename_i heq
    -- the whole string is its integer part and starts with a comma
    have hm : m.takeWhile (fun c => c != '.') = m := by
      conv_rhs => rw [← List.takeWhile_append_dropWhile (fun c => c != '.') m, heq]
      rw [List.append_nil]
    rw [if_neg]
    intro hcond
    obtain ⟨a, ha⟩ := List.exists_mem_of_ne_nil (m.takeWhile (fun c => c != '.'))
      (by rw [hm]; exact hne)
    have := hcond.2
    rw [List.all_eq_true] at this
    have hd := this a ha
    rw [htake a ha] at hd
    exact absurd hd (by decide)
  · rename_i x frac heq
    rw [if_neg]
    intro hcond
    by_cases hint : m.takeWhile (fun c => c != '.') = []
    · rcases hcond.2.2 with h1 | h1
      · exact h1 hint
      · obtain ⟨a, ha⟩ := List.exists_mem_of_ne_nil _ h1
        have := hcond.2.1
        rw [List.all_eq_true] at this
        have hd := this a ha
        have hfm : a ∈ m := by
          have hmem : a ∈ m.dropWhile (fun c => c != '.') := by
            rw [heq]; exact List.mem_cons_of_mem _ ha
          exact (List.dropWhile_sublist _).subset hmem
        rcases h a hfm with h2 | h2 <;> rw [h2] at hd <;> exact absurd hd (by decide)
    · obtain ⟨a, ha⟩ := List.exists_mem_of_ne_nil _ hint
      have := hcond.1
      rw [List.all_eq_true] at this
      have hd := this a ha
      rw [htake a ha] at hd
      exact absurd hd (by decide)

theorem parse_price_no_digit {t : String} (h : ∀ c ∈ t.toList, c.isDigit = false) :
    priceOfElementText (some t) = none := by
  have hsub : ∀ c ∈ (strTrim t).toList, c.isDigit = false := by
    intro c hc
    exact h c (trimChars_subset t.toList hc)
  rw [priceOfElementText, jsPriceText, Option.map_some']
  cases hm : priceRegexMatch (strTrim t).toList with
  | none => rfl
  | some m =>
    have hm1 : ∀ c ∈ m, c = ',' ∨ c = '.' := priceRegexMatch_chars hsub m hm
    have hm2 : ∀ c ∈ replaceFirstComma m, c = ',' ∨ c = '.' :=
      replaceFirstComma_chars hm1
    show parse_price (some (String.mk (replaceFirstComma m))) = none
    by_cases hnil : replaceFirstComma m = []
    · rw [hnil]; rfl
    · have hne : String.mk (replaceFirstComma m) ≠ "" := by
        simpa [String.ext_iff] using hnil
      rw [parse_price, if_neg hne]
      have htl : (String.mk (replaceFirstComma m)).toList = replaceFirstComma m := rfl
      rw [htl, pyFloat_no_digit hnil hm2,
        fallbackMatch_none (fun c hc => by
          rcases hm2 c hc with h1 | h1 <;> rw [h1] <;> decide)]

/-! ## Claim C5: price parsing -/

/-- **C5**: the price pipeline takes the leading `[0-9,]+\.?[0-9]*`
token of the price element's text, strips the (first) thousands
separator and parses it as a decimal, with a permissive first-number
fallback: `"$49.99"` yields price `49.99` (and a page body containing
`"$49.99"` yields currency `"USD"`), and price text containing no
digits yields an absent price with no failure raised. -/
theorem c5_price_parsing :
    priceOfElementText (some "$49.99") = some (4999 / 100 : ℚ)
    ∧ inferCurrency "$49.99" = "USD"
    ∧ ∀ t : String, (∀ c ∈ t.toList, c.isDigit = false) →
        priceOfElementText (some t) = none := by
  refine ⟨?_, rfl, ?_⟩
  · have h : priceOfElementText (some "$49.99")
        = some (((49 : ℕ) : ℚ) + ((99 : ℕ) : ℚ) / (10 : ℚ) ^ (2 : ℕ)) := rfl
    rw [h]
    norm_num
  · intro t ht
    exact parse_price_no_digit ht

/-! ## Lemmas about the orchestrator -/

theorem mem_addUrl {u v : String} {l : List String} :
    u ∈ addUrl v l ↔ u = v ∨ u ∈ l := by
  rw [addUrl]
  split
  · rename_i hv
    constructor
    · exact fun h => Or.inr h
    · intro h
      rcases h with h | h
      · rw [h]; exact hv
      · exact h
  · exact List.mem_cons

/-- Each per-product step leaves the state unchanged, adds the URL to
the success set, or adds it to the failure set. -/
theorem processProduct_cases (st : CrawlState) (url : String) (f : ProductFetch) :
    processProduct st url f = st
    ∨ processProduct st url f = { st with scraped := addUrl url st.scraped }
    ∨ processProduct st url f = { st with failed := addUrl url st.failed } := by
  cases f with
  | raise =>
    rw [processProduct]
    split
    · exact Or.inl rfl
    · exact Or.inr (Or.inr rfl)
  | navFail =>
    rw [processProduct]
    split
    · exact Or.inl rfl
    · exact Or.inr (Or.inr rfl)
  | page pm raw ok =>
    rw [processProduct]
    split
    · exact Or.inl rfl
    · split
      · split
        · split
          · exact Or.inr (Or.inl rfl)
          · exact Or.inr (Or.inr rfl)
        · exact Or.inr (Or.inr rfl)
      · exact Or.inr (Or.inr rfl)

theorem processProduct_subset (st : CrawlState) (u : String) (f : ProductFetch) :
    st.scraped ⊆ (processProduct st u f).scraped
    ∧ st.failed ⊆ (processProduct st u f).failed := by
  rcases processProduct_cases st u f with hc | hc | hc <;> rw [hc]
  · exact ⟨fun x h => h, fun x h => h⟩
  · exact ⟨fun x h => mem_addUrl.mpr (Or.inr h), fun x h => h⟩
  · exact ⟨fun x h => h, fun x h => mem_addUrl.mpr (Or.inr h)⟩

theorem processProduct_scraped_mem {st : CrawlState} {u : String} {f : ProductFetch}
    {x : String} (h : x ∈ (processProduct st u f).scraped) :
    x = u ∨ x ∈ st.scraped := by
  rcases processProduct_cases st u f with hc | hc | hc <;> rw [hc] at h
  · exact Or.inr h
  · exact mem_addUrl.mp h
  · exact Or.inr h

theorem processProduct_failed_mem {st : CrawlState} {u : String} {f : ProductFetch}
    {x : String} (h : x ∈ (processProduct st u f).failed) :
    x = u ∨ x ∈ st.failed := by
  rcases processProduct_cases st u f with hc | hc | hc <;> rw [hc] at h
  · exact Or.inr h
  · exact Or.inr h
  · exact mem_addUrl.mp h

theorem processProduct_disjoint {st : CrawlState} {u : String} {f : ProductFetch}
    (hd : DisjointUrls st.scraped st.failed)
    (hs : u ∉ st.scraped) (hf : u ∉ st.failed) :
    DisjointUrls (processProduct st u f).scraped (processProduct st u f).failed := by
  rcases processProduct_cases st u f with hc | hc | hc <;> rw [hc]
  · exact hd
  · intro x hx
    rcases mem_addUrl.mp hx with h1 | h1
    · rw [h1]; exact hf
    · exact hd x h1
  · intro x hx hx2
    rcases mem_addUrl.mp hx2 with h1 | h1
    · rw [h1] at hx; exact hs hx
    · exact hd x hx h1

theorem foldProducts_subset {fetch : String → ProductFetch} :
    ∀ (urls : List String) (st : CrawlState),
      st.scraped ⊆ (urls.foldl (fun s u => processProduct s u (fetch u)) st).scraped
      ∧ st.failed ⊆ (urls.foldl (fun s u => processProduct s u (fetch u)) st).failed := by
  intro urls
  induction urls with
  | nil => intro st; exact ⟨fun x h => h, fun x h => h⟩
  | cons u rest ih =>
    intro st
    rw [List.foldl_cons]
    constructor
    · intro x h
      exact (ih _).1 ((processProduct_subset st u (fetch u)).1 h)
    · intro x h
      exact (ih _).2 ((processProduct_subset st u (fetch u)).2 h)

theorem foldProducts_scraped_mem {fetch : String → ProductFetch} :
    ∀ (urls : List String) (st : CrawlState) (x : String),
      x ∈ (urls.foldl (fun s u => processProduct s u (fetch u)) st).scraped →
      x ∈ urls ∨ x ∈ st.scraped := by
  intro urls
  induction urls with
  | nil => intro st x h; exact Or.inr h
  | cons u rest ih =>
    intro st x h
    rw [List.foldl_cons] at h
    rcases ih _ x h with h1 | h1
    · exact Or.inl (List.mem_cons_of_mem _ h1)
    · rcases processProduct_scraped_mem h1 with h2 | h2
      · exact Or.inl (List.mem_cons.mpr (Or.inl h2))
      · exact Or.inr h2

theorem foldProducts_failed_mem {fetch : String → ProductFetch} :
    ∀ (urls : List String) (st : CrawlState) (x : String),
      x ∈ (urls.foldl (fun s u => processProduct s u (fetch u)) st).failed →
      x ∈ urls ∨ x ∈ st.failed := by
  intro urls
  induction urls with
  | nil => intro st x h; exact Or.inr h
  | cons u rest ih =>
    intro st x h
    rw [List.foldl_cons] at h
    rcases ih _ x h with h1 | h1
    · exact Or.inl (List.mem_cons_of_mem _ h1)
    · rcases processProduct_failed_mem h1 with h2 | h2
      · exact Or.inl (List.mem_cons.mpr (Or.inl h2))
      · exact Or.inr h2

theorem foldProducts_disjoint {fetch : String → ProductFetch} :
    ∀ (urls : List String) (st : CrawlState),
      urls.Nodup →
      (∀ u ∈ urls, u ∉ st.scraped ∧ u ∉ st.failed) →
      DisjointUrls st.scraped st.failed →
      DisjointUrls
        (urls.foldl (fun s u => processProduct s u (fetch u)) st).scraped
        (urls.foldl (fun s u => processProduct s u (fetch u)) st).failed := by
  intro urls
  induction urls with
  | nil => intro st _ _ hd; exact hd
  | cons u rest ih =>
    intro st hnd hfresh hd
    rw [List.foldl_cons]
    have hu := hfresh u (List.mem_cons_self u rest)
    refine ih _ (List.Nodup.of_cons hnd) ?_ (processProduct_disjoint hd hu.1 hu.2)
    intro v hv
    have hvu : v ≠ u := by
      intro hvu
      rw [hvu] at hv
      exact (List.nodup_cons.mp hnd).1 hv
    have hvf := hfresh v (List.mem_cons_of_mem _ hv)
    constructor
    · intro hmem
      rcases processProduct_scraped_mem hmem with h1 | h1
      · exact hvu h1
      · exact hvf.1 h1
    · intro hmem
      rcases processProduct_failed_mem hmem with h1 | h1
      · exact hvu h1
      · exact hvf.2 h1

theorem runAux_subset {mp : Option Int} :
    ∀ (cats : List CategoryResult) (st : CrawlState),
      st.scraped ⊆ (runAux mp st cats).1.scraped
      ∧ st.failed ⊆ (runAux mp st cats).1.failed := by
  intro cats
  induction cats with
  | nil => intro st; exact ⟨fun x h => h, fun x h => h⟩
  | cons c rest ih =>
    intro st
    cases c with
    | loadFail => exact ⟨fun x h => h, fun x h => h⟩
    | ok env =>
      constructor
      · intro x h
        exact (ih _).1 ((foldProducts_subset _ st).1 h)
      · intro x h
        exact (ih _).2 ((foldProducts_subset _ st).2 h)

theorem runAux_scraped_mem {mp : Option Int} :
    ∀ (cats : List CategoryResult) (st : CrawlState) (x : String),
      x ∈ (runAux mp st cats).1.scraped → x ∈ allUrls mp cats ∨ x ∈ st.scraped := by
  intro cats
  induction cats with
  | nil => intro st x h; exact Or.inr h
  | cons c rest ih =>
    intro st x h
    cases c with
    | loadFail =>
      have h2 : x ∈ st.scraped := h
      exact Or.inr h2
    | ok env =>
      rw [allUrls]
      have h2 : x ∈ (runAux mp
          ((urlsOfCat mp (CategoryResult.ok env)).foldl
            (fun s u => processProduct s u (env.fetch u)) st) rest).1.scraped := h
      rcases ih _ x h2 with h1 | h1
      · exact Or.inl (List.mem_append.mpr (Or.inr h1))
      · rcases foldProducts_scraped_mem _ st x h1 with h3 | h3
        · exact Or.inl (List.mem_append.mpr (Or.inl h3))
        · exact Or.inr h3

theorem runAux_failed_mem {mp : Option Int} :
    ∀ (cats : List CategoryResult) (st : CrawlState) (x : String),
      x ∈ (runAux mp st cats).1.failed → x ∈ allUrls mp cats ∨ x ∈ st.failed := by
  intro cats
  induction cats with
  | nil => intro st x h; exact Or.inr h
  | cons c rest ih =>
    intro st x h
    cases c with
    | loadFail =>
      have h2 : x ∈ st.failed := h
      exact Or.inr h2
    | ok env =>
      rw [allUrls]
      have h2 : x ∈ (runAux mp
          ((urlsOfCat mp (CategoryResult.ok env)).foldl
            (fun s u => processProduct s u (env.fetch u)) st) rest).1.failed := h
      rcases ih _ x h2 with h1 | h1
      · exact Or.inl (List.mem_append.mpr (Or.inr h1))
      · rcases foldProducts_failed_mem _ st x h1 with h3 | h3
        · exact Or.inl (List.mem_append.mpr (Or.inl h3))
        · exact Or.inr h3

theorem runAux_disjoint {mp : Option Int} :
    ∀ (cats : List CategoryResult) (st : CrawlState),
      (allUrls mp cats).Nodup →
      (∀ u ∈ allUrls mp cats, u ∉ st.scraped ∧ u ∉ st.failed) →
      DisjointUrls st.scraped st.failed →
      DisjointUrls (runAux mp st cats).1.scraped (runAux mp st cats).1.failed := by
  intro cats
  induction cats with
  | nil => intro st _ _ hd; exact hd
  | cons c rest ih =>
    intro st hnd hfresh hd
    cases c with
    | loadFail =>
      exact (hd : DisjointUrls st.scraped st.failed)
    | ok env =>
      rw [allUrls] at hnd hfresh
      obtain ⟨hnd1, hnd2, hdisj⟩ := List.nodup_append.mp hnd
      have hfresh1 : ∀ u ∈ urlsOfCat mp (CategoryResult.ok env),
          u ∉ st.scraped ∧ u ∉ st.failed :=
        fun u hu => hfresh u (List.mem_append.mpr (Or.inl hu))
      have hd2 := @foldProducts_disjoint env.fetch
        (urlsOfCat mp (CategoryResult.ok env)) st hnd1 hfresh1 hd
      have hfresh2 : ∀ u ∈ allUrls mp rest,
          u ∉ ((urlsOfCat mp (CategoryResult.ok env)).foldl
              (fun s u => processProduct s u (env.fetch u)) st).scraped
          ∧ u ∉ ((urlsOfCat mp (CategoryResult.ok env)).foldl
              (fun s u => processProduct s u (env.fetch u)) st).failed := by
        intro u hu
        have hucat : u ∉ urlsOfCat mp (CategoryResult.ok env) :=
          fun hc => hdisj hc hu
        have hust := hfresh u (List.mem_append.mpr (Or.inr hu))
        constructor
        · intro hmem
          rcases foldProducts_scraped_mem _ st u hmem with h1 | h1
          · exact hucat h1
          · exact hust.1 h1
        · intro hmem
          rcases foldProducts_failed_mem _ st u hmem with h1 | h1
          · exact hucat h1
          · exact hust.2 h1
      exact ih _ hnd2 hfresh2 hd2

/-! ## Claims C2, C3, C10: the orchestrator's success/failure sets -/

/-- **C2**, counterexample: a run over two categories that both list
the same product URL, where the first attempt fails (navigation error)
and the second succeeds, ends with that URL in *both* the success set
and the failure set — the retry guard only consults the success set and
nothing ever removes a URL from the failure set. -/
theorem c2_counterexample :
    c2url ∈ (run none [CategoryResult.ok c2EnvA, CategoryResult.ok c2EnvB]).1.scraped
    ∧ c2url ∈ (run none [CategoryResult.ok c2EnvA, CategoryResult.ok c2EnvB]).1.failed := by
  decide

/-- **C2** (amended): the success and failure sets are disjoint after
any run in which no product URL is listed by more than one category
walk (in particular any single-category run); with repeats across
categories a URL that first fails and later succeeds lands in both
sets. -/
theorem c2_disjoint_when_unique (mp : Option Int) (cats : List CategoryResult)
    (h : (allUrls mp cats).Nodup) :
    ∀ u, u ∈ (run mp cats).1.scraped → u ∉ (run mp cats).1.failed := by
  have hd := runAux_disjoint cats { scraped := [], failed := [] } h
    (fun u _ => ⟨List.not_mem_nil u, List.not_mem_nil u⟩)
    (fun u hu => absurd hu (List.not_mem_nil u))
  exact hd

/-- Witness for `c2_disjoint_when_unique`: a single-category run whose
walk yields one URL. -/
theorem c2_disjoint_when_unique_witness :
    (allUrls none c2wCats).Nodup
    ∧ (c2url ∈ (run none c2wCats).1.scraped → c2url ∉ (run none c2wCats).1.failed) :=
  ⟨by decide, c2_disjoint_when_unique none c2wCats (by decide) c2url⟩

/-- **C3**, counterexample: with two categories of which the first
fails to load, only one category is attempted — the unhandled
navigation error propagates out of `scrape_category` (whose `try` has
only a `finally`) and out of `run`'s category loop, so the second
category is never attempted, contradicting the claim that every
subsequent category is still attempted. -/
theorem c3_counterexample :
    (run none [CategoryResult.loadFail, CategoryResult.ok trivCatEnv]).2 = 1
    ∧ (run none [CategoryResult.loadFail, CategoryResult.ok trivCatEnv]).2 ≠ 2 := by
  decide

/-- **C3** (amended): an unhandled error while loading a category page
aborts the *entire run*, not just that category: the failing category
is the last one attempted and the crawl state is left as it was, while
a run whose categories all load does attempt every category. -/
theorem c3_category_abort :
    (∀ (mp : Option Int) (st : CrawlState) (rest : List CategoryResult),
        runAux mp st (CategoryResult.loadFail :: rest) = (st, 1))
    ∧ (∀ (mp : Option Int) (cats : List CategoryResult) (st : CrawlState),
        (∀ c ∈ cats, c ≠ CategoryResult.loadFail) →
          (runAux mp st cats).2 = cats.length) := by
  constructor
  · intro mp st rest
    rfl
  · intro mp cats
    induction cats with
    | nil => intro st _; rfl
    | cons c rest ih =>
      intro st hc
      cases c with
      | loadFail =>
        exact absurd rfl (hc CategoryResult.loadFail (List.mem_cons_self _ _))
      | ok env =>
        have h2 := ih ((urlsOfCat mp (CategoryResult.ok env)).foldl
          (fun s u => processProduct s u (env.fetch u)) st)
          (fun d hd => hc d (List.mem_cons_of_mem _ hd))
        show (runAux mp ((urlsOfCat mp (CategoryResult.ok env)).foldl
          (fun s u => processProduct s u (env.fetch u)) st) rest).2 + 1 = rest.length + 1
        rw [h2]

/-- **C10**: the success and failure sets grow monotonically — each
per-product step leaves each set unchanged or adds its URL to exactly
one of them, never removing anything, and across the rest of any run
both sets only grow; in particular a URL once in the failure set stays
there even if a later attempt on it succeeds. -/
theorem c10_sets_monotone :
    (∀ (st : CrawlState) (url : String) (f : ProductFetch),
        ((processProduct st url f).scraped = st.scraped
            ∨ (processProduct st url f).scraped = addUrl url st.scraped)
        ∧ ((processProduct st url f).failed = st.failed
            ∨ (processProduct st url f).failed = addUrl url st.failed)
        ∧ ((processProduct st url f).scraped = st.scraped
            ∨ (processProduct st url f).failed = st.failed)
        ∧ st.scraped ⊆ (processProduct st url f).scraped
        ∧ st.failed ⊆ (processProduct st url f).failed)
    ∧ (∀ (mp : Option Int) (cats : List CategoryResult) (st : CrawlState),
        st.scraped ⊆ (runAux mp st cats).1.scraped
        ∧ st.failed ⊆ (runAux mp st cats).1.failed) := by
  constructor
  · intro st url f
    rcases processProduct_cases st url f with hc | hc | hc <;> rw [hc]
    · exact ⟨Or.inl rfl, Or.inl rfl, Or.inl rfl, fun x h => h, fun x h => h⟩
    · exact ⟨Or.inr rfl, Or.inl rfl, Or.inr rfl,
        fun x h => mem_addUrl.mpr (Or.inr h), fun x h => h⟩
    · exact ⟨Or.inl rfl, Or.inr rfl, Or.inl rfl,
        fun x h => h, fun x h => mem_addUrl.mpr (Or.inr h)⟩
  · intro mp cats st
    exact runAux_subset cats st

end AEScraper
